import Mathlib

/-!
Verification development for the documentation-ingestion pipeline of
`qdrant/mcp-for-docs` (package `qdrant_docs_mcp`): a shallow embedding of the
data model (`tools/models.py`), the markdown snippet extractor
(`tools/extractor.py`), the point-id derivation (`tools/models.py`,
`tools/encode_snippets.py`) and the source drivers, version resolution and
upsert logic (`tools/importer.py`), together with theorems settling the
behavioural claims about them.

External effects (network lookups, the filesystem, the embedding model and
the vector store client) are modelled as explicit inputs: a network call
becomes a value describing its outcome, a repository on disk becomes a list
of file records, and the embedding model becomes a function parameter.
Python exceptions are modelled with `Except`; machine behaviour that the
claims depend on (CPython string operations, the `semver` package, pydantic
string representation, SHA-256) is embedded executably below.
-/

/- ===================== Python string primitives ===================== -/

/-- Python `s.strip("v")`: remove every leading and trailing `'v'` character
(note: both ends, and any number of them — not just one optional leading `v`). -/
def pyStripV (s : String) : String :=
  ⟨((s.data.dropWhile (fun c => c = 'v')).reverse.dropWhile (fun c => c = 'v')).reverse⟩

/-- Python `s.startswith(p)`. -/
def pyStartswith (s p : String) : Bool :=
  p.data.isPrefixOf s.data

/-- Python `link.split("#")[0]`: the text before the first `'#'` (the whole
string when there is none). -/
def stripFragment (s : String) : String :=
  ⟨s.data.takeWhile (fun c => c ≠ '#')⟩

/-- Python truthiness `a or b` on an optional string: `None` and the empty
string are falsy, so both fall through to `b`. Models the expression
`snippet.language or library.language` in `importer.py`. -/
def pyOrStr (a : Option String) (b : String) : String :=
  match a with
  | none => b
  | some s => if s = "" then b else s

/-- Index of the last `'.'` in a list of characters, when any. -/
def lastDotIdx (l : List Char) : Option Nat :=
  match l with
  | [] => none
  | c :: rest =>
    match lastDotIdx rest with
    | some i => some (i + 1)
    | none => if c = '.' then some 0 else none

/-- Python `pathlib.Path(name).stem` for a plain file name: the name without
its final suffix; a dot at position 0 (hidden file) does not start a suffix. -/
def pyStem (name : String) : String :=
  match lastDotIdx name.data with
  | some i => if i = 0 then name else ⟨name.data.take i⟩
  | none => name

/-- Python `repr` of a `str` containing no quote, backslash or non-printable
character: the text wrapped in single quotes. All strings this development
applies it to are of that plain form. -/
def pyRepr (s : String) : String :=
  "'" ++ s ++ "'"

/- ===================== models.py: data model ===================== -/

/-- `models.py` `PartialSnippet`: intermediate record emitted by the
extractors, with nullable `category`, `description` and `language`. -/
structure PartialSnippet where
  category : Option String
  description : Option String
  snippet : String
  language : Option String
  source : String
deriving DecidableEq, Repr

/-- `models.py` `Snippet`: the fully resolved record, all fields required
strings, in the declared field order. -/
structure Snippet where
  category : String
  sub_category : String
  language : String
  snippet : String
  description : String
  package_name : String
  version : String
  source : String
deriving DecidableEq, Repr

/-- `models.py` `Snippet.document`: the derived embedding input, equal to the
`description` field. -/
def Snippet.document (s : Snippet) : String :=
  s.description

/-- `models.py` `Snippet.metadata`: `model_dump(exclude={"description"})` —
every field except `description`, in declaration order. -/
def Snippet.metadata (s : Snippet) : List (String × String) :=
  [("category", s.category), ("sub_category", s.sub_category),
   ("language", s.language), ("snippet", s.snippet),
   ("package_name", s.package_name), ("version", s.version),
   ("source", s.source)]

/-- Pydantic `str(self)` on a `Snippet`: space-separated `field=repr(value)`
pairs in field-declaration order (pydantic `BaseModel.__str__`). -/
def pyStrOfSnippet (s : Snippet) : String :=
  "category=" ++ pyRepr s.category ++
  " sub_category=" ++ pyRepr s.sub_category ++
  " language=" ++ pyRepr s.language ++
  " snippet=" ++ pyRepr s.snippet ++
  " description=" ++ pyRepr s.description ++
  " package_name=" ++ pyRepr s.package_name ++
  " version=" ++ pyRepr s.version ++
  " source=" ++ pyRepr s.source

/- ===================== UTF-8 and SHA-256 ===================== -/

/-- UTF-8 encoding of one character, as byte values (Python
`content.encode("utf-8")`, per character). -/
def utf8EncodeChar (c : Char) : List Nat :=
  let n := c.toNat
  if n < 0x80 then [n]
  else if n < 0x800 then
    [0xC0 + n / 0x40, 0x80 + n % 0x40]
  else if n < 0x10000 then
    [0xE0 + n / 0x1000, 0x80 + (n / 0x40) % 0x40, 0x80 + n % 0x40]
  else
    [0xF0 + n / 0x40000, 0x80 + (n / 0x1000) % 0x40,
     0x80 + (n / 0x40) % 0x40, 0x80 + n % 0x40]

/-- UTF-8 encoding of a string as a byte list. -/
def utf8Encode (s : String) : List Nat :=
  s.data.flatMap utf8EncodeChar

/-- Right rotation of a 32-bit word held in a `Nat`. -/
def rotr32 (n x : Nat) : Nat :=
  (x / 2 ^ n + x % 2 ^ n * 2 ^ (32 - n)) % 2 ^ 32

/-- The SHA-256 round constants. -/
def sha256K : List Nat :=
  [1116352408, 1899447441, 3049323471, 3921009573, 961987163,
   1508970993, 2453635748, 2870763221, 3624381080, 310598401,
   607225278, 1426881987, 1925078388, 2162078206, 2614888103,
   3248222580, 3835390401, 4022224774, 264347078, 604807628,
   770255983, 1249150122, 1555081692, 1996064986, 2554220882,
   2821834349, 2952996808, 3210313671, 3336571891, 3584528711,
   113926993, 338241895, 666307205, 773529912, 1294757372,
   1396182291, 1695183700, 1986661051, 2177026350, 2456956037,
   2730485921, 2820302411, 3259730800, 3345764771, 3516065817,
   3600352804, 4094571909, 275423344, 430227734, 506948616,
   659060556, 883997877, 958139571, 1322822218, 1537002063,
   1747873779, 1955562222, 2024104815, 2227730452, 2361852424,
   2428436474, 2756734187, 3204031479, 3329325298]

/-- The SHA-256 initial hash state. -/
def sha256H0 : List Nat :=
  [1779033703, 3144134277, 1013904242, 2773480762,
   1359893119, 2600822924, 528734635, 1541459225]

/-- SHA-256 padding: append `0x80`, zero bytes and the 64-bit big-endian bit
length so the total length is a multiple of 64 bytes. -/
def sha256Pad (msg : List Nat) : List Nat :=
  let len := msg.length
  let zeros := (64 - (len + 9) % 64) % 64
  let bitLen := len * 8
  msg ++ [0x80] ++ List.replicate zeros 0 ++
    [bitLen / 2 ^ 56 % 256, bitLen / 2 ^ 48 % 256, bitLen / 2 ^ 40 % 256,
     bitLen / 2 ^ 32 % 256, bitLen / 2 ^ 24 % 256, bitLen / 2 ^ 16 % 256,
     bitLen / 2 ^ 8 % 256, bitLen % 256]

/-- Group a byte list into 32-bit big-endian words. -/
def bytesToWords : List Nat → List Nat
  | a :: b :: c :: d :: rest =>
    (a * 2 ^ 24 + b * 2 ^ 16 + c * 2 ^ 8 + d) :: bytesToWords rest
  | _ => []

/-- Split a list into chunks of 16 elements, with explicit structural fuel so
that the kernel can evaluate it. -/
def chunk16Go : Nat → List Nat → List (List Nat)
  | 0, _ => []
  | _, [] => []
  | fuel + 1, l => l.take 16 :: chunk16Go fuel (l.drop 16)

/-- Split a list into chunks of 16 elements (one SHA-256 block of words). -/
def chunk16 (l : List Nat) : List (List Nat) :=
  chunk16Go l.length l

/-- Extend a 16-word block to the 64-word message schedule. -/
def sha256Extend (w : List Nat) (i : Nat) : List Nat :=
  match i with
  | 0 => w
  | i + 1 =>
    let w := sha256Extend w i
    let j := w.length
    if j < 64 then
      let w15 := w.getD (j - 15) 0
      let w2 := w.getD (j - 2) 0
      let s0 := (Nat.xor (Nat.xor (rotr32 7 w15) (rotr32 18 w15)) (w15 / 2 ^ 3)) % 2 ^ 32
      let s1 := (Nat.xor (Nat.xor (rotr32 17 w2) (rotr32 19 w2)) (w2 / 2 ^ 10)) % 2 ^ 32
      w ++ [(w.getD (j - 16) 0 + s0 + w.getD (j - 7) 0 + s1) % 2 ^ 32]
    else w

/-- One SHA-256 compression round. -/
def sha256Round (w k : Nat) (st : List Nat) : List Nat :=
  match st with
  | [a, b, c, d, e, f, g, h] =>
    let s1 := Nat.xor (Nat.xor (rotr32 6 e) (rotr32 11 e)) (rotr32 25 e)
    let ch := Nat.xor (Nat.land e f) (Nat.land (2 ^ 32 - 1 - e) g)
    let t1 := (h + s1 + ch + k + w) % 2 ^ 32
    let s0 := Nat.xor (Nat.xor (rotr32 2 a) (rotr32 13 a)) (rotr32 22 a)
    let mj := Nat.xor (Nat.xor (Nat.land a b) (Nat.land a c)) (Nat.land b c)
    let t2 := (s0 + mj) % 2 ^ 32
    [(t1 + t2) % 2 ^ 32, a, b, c, (d + t1) % 2 ^ 32, e, f, g]
  | other => other

/-- Run the 64 compression rounds of one block. -/
def sha256Rounds : List Nat → List Nat → List Nat → List Nat
  | [], _, st => st
  | _, [], st => st
  | w :: ws, k :: ks, st => sha256Rounds ws ks (sha256Round w k st)

/-- Process one block: compress and add into the running state. -/
def sha256Block (st block : List Nat) : List Nat :=
  let w := sha256Extend block 48
  let out := sha256Rounds w sha256K st
  (st.zip out).map (fun p => (p.1 + p.2) % 2 ^ 32)

/-- The SHA-256 digest of a byte list, as 32 bytes
(Python `hashlib.sha256(content).digest()`). -/
def sha256 (msg : List Nat) : List Nat :=
  let blocks := chunk16 (bytesToWords (sha256Pad msg))
  let final := blocks.foldl sha256Block sha256H0
  final.flatMap (fun x => [x / 2 ^ 24 % 256, x / 2 ^ 16 % 256, x / 2 ^ 8 % 256, x % 256])

/-- Two lowercase hex digits of a byte. -/
def hexByte (b : Nat) : String :=
  let digit := fun n => "0123456789abcdef".data.getD n '0'
  ⟨[digit (b / 16), digit (b % 16)]⟩

/-- Python `str(uuid.UUID(bytes=bs))` for 16 bytes: 32 hex digits grouped
8-4-4-4-12 with dashes. -/
def uuidOfBytes (bs : List Nat) : String :=
  let hx := (bs.map hexByte).foldr (fun a b => a ++ b) ""
  let d := hx.data
  ⟨d.take 8⟩ ++ "-" ++ ⟨(d.drop 8).take 4⟩ ++ "-" ++ ⟨(d.drop 12).take 4⟩ ++
    "-" ++ ⟨(d.drop 16).take 4⟩ ++ "-" ++ ⟨d.drop 20⟩

/-- `encode_snippets.py` `generate_uuid_from_content`: the UUID built from the
first 16 bytes of the SHA-256 hash of the UTF-8 encoded content. -/
def generate_uuid_from_content (content : String) : String :=
  uuidOfBytes ((sha256 (utf8Encode content)).take 16)

/-- `models.py` `Snippet.uuid`: `content = str(self)`, then the UUID from the
first 16 bytes of `sha256(content.encode("utf-8"))`. The hashed string is the
full field representation — every field, not only the identity fields. -/
def Snippet.uuid (s : Snippet) : String :=
  uuidOfBytes ((sha256 (utf8Encode (pyStrOfSnippet s))).take 16)

/-- `encode_snippets.py` `main`: the point id is
`generate_uuid_from_content(f"{category}_{sub_category}_{language}_{package_name}_{version}")`. -/
def encodeSnippetsPointId (category subCat language packageName version : String) : String :=
  generate_uuid_from_content
    (category ++ "_" ++ subCat ++ "_" ++ language ++ "_" ++ packageName ++ "_" ++ version)

/- ===================== extractor.py: markdown tree extraction ===================== -/

/-- A text node inside an inline node (markdown-it token tree, depth 2 under a
heading). Only the `content` attribute is consulted by the extractor. -/
structure TextNode where
  content : String
deriving DecidableEq, Repr

/-- An inline child of a heading or paragraph node: the extractor consults its
`content` and its `children`. -/
structure InlineNode where
  content : String
  children : List TextNode
deriving DecidableEq, Repr

/-- A direct child of the markdown tree root, as distinguished by
`_extract_from_markdown_tree`: fenced code (whose `info` string is the
declared language, possibly empty), an indented code block, a heading, a
paragraph, or any other node type (ignored). -/
inductive MdNode where
  | fence (info : String) (content : String)
  | codeBlock (content : String)
  | heading (children : List InlineNode)
  | paragraph (children : List InlineNode)
  | other
deriving DecidableEq, Repr

/-- The fold of `_extract_from_markdown_tree` over the root's direct children,
carrying the `current_heading` and `current_paragraph` cells. -/
def extractTreeGo (source : String) :
    List MdNode → Option String → Option String → List PartialSnippet
  | [], _, _ => []
  | MdNode.fence info content :: rest, h, p =>
    { category := some "", description := some ((h.getD "") ++ (p.getD "")),
      snippet := content, language := some info, source := source } ::
      extractTreeGo source rest h p
  | MdNode.codeBlock content :: rest, h, p =>
    { category := some "", description := some ((h.getD "") ++ (p.getD "")),
      snippet := content, language := none, source := source } ::
      extractTreeGo source rest h p
  | MdNode.heading children :: rest, h, p =>
    match children with
    | [] => extractTreeGo source rest h p
    | c :: _ =>
      match c.children with
      | [] => extractTreeGo source rest h p
      | t :: _ => extractTreeGo source rest (some t.content) none
  | MdNode.paragraph children :: rest, h, p =>
    match children with
    | [] => extractTreeGo source rest h p
    | c :: _ => extractTreeGo source rest h (some c.content)
  | MdNode.other :: rest, h, p => extractTreeGo source rest h p

/-- `extractor.py` `_extract_from_markdown_tree(root, source)`: walk the
root's direct children with `current_heading = current_paragraph = None`,
emitting one `PartialSnippet` per fence or indented code block. -/
def extract_from_markdown_tree (root : List MdNode) (source : String) : List PartialSnippet :=
  extractTreeGo source root none none

/- ===================== the semver package (external dependency) ===================== -/

/-- Models the external `semver` package. A numeric identifier: digits only,
no leading zero unless it is exactly `0`. -/
def semverNumericId (l : List Char) : Bool :=
  l ≠ [] && l.all Char.isDigit && !(l.head? = some '0' && l.length ≠ 1)

/-- An alphanumeric-or-hyphen character, the alphabet of semver prerelease and
build identifiers. -/
def semverIdChar (c : Char) : Bool :=
  c.isAlpha || c.isDigit || c = '-'

/-- A valid prerelease identifier: numeric without leading zeros, or
alphanumeric-hyphen containing at least one non-digit. -/
def semverPreId (l : List Char) : Bool :=
  semverNumericId l || (l ≠ [] && l.all semverIdChar && l.any (fun c => !c.isDigit))

/-- A valid build identifier: nonempty alphanumeric-hyphen. -/
def semverBuildId (l : List Char) : Bool :=
  l ≠ [] && l.all semverIdChar

/-- Split a character list on a separator character. -/
def splitOnChar (sep : Char) (l : List Char) : List (List Char) :=
  match l with
  | [] => [[]]
  | c :: rest =>
    let r := splitOnChar sep rest
    if c = sep then [] :: r
    else match r with
      | [] => [[c]]
      | x :: xs => (c :: x) :: xs

/-- Digits to a natural number (most significant first). -/
def natOfDigits (l : List Char) : Nat :=
  l.foldl (fun acc c => acc * 10 + (c.toNat - '0'.toNat)) 0

/-- A prerelease identifier as the `semver` package compares it: numeric
identifiers as numbers, others as text. -/
inductive SemverPreId where
  | num (n : Nat)
  | alnum (s : List Char)
deriving DecidableEq, Repr

/-- A parsed semantic version: the numeric core and the optional prerelease
identifier list (the build metadata never influences ordering). -/
structure SemverVersion where
  major : Nat
  minor : Nat
  patch : Nat
  prerelease : Option (List SemverPreId)
deriving DecidableEq, Repr

/-- Parse the part of a semver string before any `+build` suffix. -/
def semverParseCorePre (l : List Char) : Option SemverVersion :=
  match splitOnChar '-' l with
  | [] => none
  | core :: preParts =>
    match splitOnChar '.' core with
    | [ma, mi, pa] =>
      if semverNumericId ma && semverNumericId mi && semverNumericId pa then
        match preParts with
        | [] => some ⟨natOfDigits ma, natOfDigits mi, natOfDigits pa, none⟩
        | _ =>
          let preIds := splitOnChar '.' (String.intercalate "-" (preParts.map (fun p => (⟨p⟩ : String)))).data
          if preIds.all semverPreId then
            some ⟨natOfDigits ma, natOfDigits mi, natOfDigits pa,
                  some (preIds.map (fun p => if semverNumericId p then SemverPreId.num (natOfDigits p) else SemverPreId.alnum p))⟩
          else none
      else none
    | _ => none

/-- Parse a version string the way `semver.Version.parse` accepts it:
`MAJOR.MINOR.PATCH` with optional `-prerelease` and `+build` parts; `none`
when the text is not a valid semantic version (`semver.Version.is_valid`
is exactly the success of this parse). -/
def semverParse (s : String) : Option SemverVersion :=
  match splitOnChar '+' s.data with
  | [corePre] => semverParseCorePre corePre
  | [corePre, build] =>
    if (splitOnChar '.' build).all semverBuildId then semverParseCorePre corePre
    else none
  | _ => none

/-- `semver.Version.is_valid`. -/
def semverIsValid (s : String) : Bool :=
  (semverParse s).isSome

/-- Compare two prerelease identifiers as the `semver` package does: numeric
identifiers compare as numbers and sort before alphanumeric ones; alphanumeric
identifiers compare as ASCII text. -/
def semverPreIdCompare (a b : SemverPreId) : Ordering :=
  match a, b with
  | SemverPreId.num m, SemverPreId.num n => compare m n
  | SemverPreId.num _, SemverPreId.alnum _ => Ordering.lt
  | SemverPreId.alnum _, SemverPreId.num _ => Ordering.gt
  | SemverPreId.alnum s, SemverPreId.alnum t => compare s.asString t.asString

/-- Lexicographic comparison of prerelease identifier lists; a strict prefix
sorts first. -/
def semverPreListCompare : List SemverPreId → List SemverPreId → Ordering
  | [], [] => Ordering.eq
  | [], _ :: _ => Ordering.lt
  | _ :: _, [] => Ordering.gt
  | a :: as, b :: bs =>
    match semverPreIdCompare a b with
    | Ordering.eq => semverPreListCompare as bs
    | o => o

/-- Semantic-version precedence: numeric core lexicographically, then a
version without prerelease outranks one with, then prerelease lists
identifier by identifier. Build metadata is ignored. -/
def semverCompare (a b : SemverVersion) : Ordering :=
  match compare a.major b.major with
  | Ordering.eq =>
    match compare a.minor b.minor with
    | Ordering.eq =>
      match compare a.patch b.patch with
      | Ordering.eq =>
        match a.prerelease, b.prerelease with
        | none, none => Ordering.eq
        | none, some _ => Ordering.gt
        | some _, none => Ordering.lt
        | some x, some y => semverPreListCompare x y
      | o => o
    | o => o
  | o => o

/-- The sort key used at `importer.py:56`: `semver.Version.parse(t.strip("v"))`;
the list is pre-filtered to valid tags, so the parse never fails there and the
`none` case is arbitrary. -/
def tagLe (a b : String) : Bool :=
  match semverParse (pyStripV a), semverParse (pyStripV b) with
  | some x, some y => semverCompare x y ≠ Ordering.gt
  | _, _ => true

/-- Stable insertion into a sorted list: an element goes before the first
element it is `le` to, so ties keep their original order (Python `sorted` is
stable). -/
def insertStable (le : α → α → Bool) (x : α) : List α → List α
  | [] => [x]
  | y :: ys => if le x y then x :: y :: ys else y :: insertStable le x ys

/-- Python `sorted(l, key=...)` modelled as a stable insertion sort. -/
def pySorted (le : α → α → Bool) : List α → List α
  | [] => []
  | x :: xs => insertStable le x (pySorted le xs)

/- ===================== importer.py: version resolution ===================== -/

/-- `models.py` `_VersionType`. -/
inductive VersionType where
  | gh_tags
  | gh_release
  | pypi
  | version
deriving DecidableEq, Repr

/-- `models.py` `VersionBy`. -/
structure VersionBy where
  version_type : VersionType
  value : String
deriving DecidableEq, Repr

/-- `models.py` `Library`. -/
structure Library where
  name : String
  github : String
  language : String
  config_file : String := ".mcp-for-docs.json"
deriving DecidableEq, Repr

/-- A Python exception escaping the version-resolution helpers, carrying a
description of its kind. -/
structure PyError where
  message : String
deriving DecidableEq, Repr

/-- Outcome of a `requests.get` call whose successful body yields a value of
type `α` (the `"version"`/`"tag_name"` field, or the tag-name list):
`netRaise` — `requests.get` itself raised (connection failure, timeout);
`httpFail` — a response arrived with `r.ok` false;
`jsonRaise` — `r.ok` but `r.json()` raised on a malformed body;
`missingKey` — the body parsed but the expected field is absent, so the
subscript raises `KeyError`;
`value` — the body parsed and the field is present. -/
inductive NetOutcome (α : Type) where
  | netRaise
  | httpFail
  | jsonRaise
  | missingKey
  | value (v : α)
deriving DecidableEq, Repr

/-- The pure tag-selection core of `importer.py` `_get_latest_github_tag`,
given the fetched tag names: keep tags valid after `t.strip("v")`, sort by
the parsed version, and return the last (maximal) one — or `None` when no
tag survives the filter. -/
def latestTagOf (tagNames : List String) : Option String :=
  let validTagNames :=
    pySorted tagLe (tagNames.filter (fun t => semverIsValid (pyStripV t)))
  match validTagNames.reverse with
  | [] => none
  | t :: _ => some t

/-- `importer.py` `_get_latest_github_tag`, with the network call an explicit
outcome. A raised connection error or malformed body propagates; an HTTP
error status returns `None`. -/
def getLatestGithubTag (resp : NetOutcome (List String)) : Except PyError (Option String) :=
  match resp with
  | NetOutcome.netRaise => Except.error ⟨"requests.ConnectionError"⟩
  | NetOutcome.httpFail => Except.ok none
  | NetOutcome.jsonRaise => Except.error ⟨"requests.JSONDecodeError"⟩
  | NetOutcome.missingKey => Except.error ⟨"TypeError"⟩
  | NetOutcome.value tags => Except.ok (latestTagOf tags)

/-- `importer.py` `_get_latest_pypi_version`: `data["version"]` on a
successful response, `None` on an HTTP error status; a connection failure,
malformed body or missing key raises. -/
def getLatestPypiVersion (resp : NetOutcome String) : Except PyError (Option String) :=
  match resp with
  | NetOutcome.netRaise => Except.error ⟨"requests.ConnectionError"⟩
  | NetOutcome.httpFail => Except.ok none
  | NetOutcome.jsonRaise => Except.error ⟨"requests.JSONDecodeError"⟩
  | NetOutcome.missingKey => Except.error ⟨"KeyError: version"⟩
  | NetOutcome.value v => Except.ok (some v)

/-- `importer.py` `_get_github_release_tag`: like the PyPI lookup but for the
`tag_name` field of the latest-release endpoint. -/
def getGithubReleaseTag (resp : NetOutcome String) : Except PyError (Option String) :=
  match resp with
  | NetOutcome.netRaise => Except.error ⟨"requests.ConnectionError"⟩
  | NetOutcome.httpFail => Except.ok none
  | NetOutcome.jsonRaise => Except.error ⟨"requests.JSONDecodeError"⟩
  | NetOutcome.missingKey => Except.error ⟨"KeyError: tag_name"⟩
  | NetOutcome.value v => Except.ok (some v)

/-- Python `version or "unknown"` on an optional string (`None` and `""` are
falsy). -/
def pyOrUnknown (v : Option String) : String :=
  pyOrStr v "unknown"

/-- `importer.py` `get_version`, over the `version_by` policy of a source and
the outcomes of the three possible network lookups. Mirrors the source's
control flow: a fixed version is returned verbatim; PyPI returns its value or
`"unknown"` and never consults tags; a GitHub release lookup falls back to
the tag lookup when it yields nothing; the tag branch also runs when the
policy is `gh_tags`. -/
def get_version (vb : VersionBy) (pypiResp : NetOutcome String)
    (releaseResp : NetOutcome String) (tagsResp : NetOutcome (List String)) :
    Except PyError String :=
  if vb.version_type = VersionType.version then Except.ok vb.value
  else if vb.version_type = VersionType.pypi then
    match getLatestPypiVersion pypiResp with
    | Except.error e => Except.error e
    | Except.ok v => Except.ok (pyOrUnknown v)
  else
    match (if vb.version_type = VersionType.gh_release then
             getGithubReleaseTag releaseResp
           else Except.ok none) with
    | Except.error e => Except.error e
    | Except.ok version =>
      if vb.version_type = VersionType.gh_tags ∨ version = none then
        match getLatestGithubTag tagsResp with
        | Except.error e => Except.error e
        | Except.ok v => Except.ok (pyOrUnknown v)
      else Except.ok (pyOrUnknown version)

/- ===================== importer.py: repository driver ===================== -/

/-- The promotion loop of `importer.py` `extract_from_repo` (lines 219-235):
`if snippet.language is not None and snippet.language != library.language:
continue` drops a snippet before anything of it is evaluated; for the first
snippet that passes the filter, evaluating the keyword arguments of the
`Snippet(...)` call raises — `code=snippet.code` reads an attribute that
`models.py`'s `PartialSnippet` does not declare (`AttributeError`), and the
`Snippet` model would reject the arguments in any case (no `code` field;
required `category`, `sub_category` and `snippet` missing). The loop
therefore returns the empty list when every snippet is filtered out, and
raises at the first kept snippet; no `Snippet` is ever appended. `version`
and `relTo` (modelling `Path(...).relative_to(repo)`) are carried for the
source signature but sit in keyword arguments that are never reached. -/
def extractFromRepoPromote (library : Library) (version : String)
    (relTo : String → String) : List PartialSnippet → Except PyError (List Snippet)
  | [] => Except.ok []
  | snippet :: rest =>
    if snippet.language ≠ none ∧ snippet.language ≠ some library.language then
      extractFromRepoPromote library version relTo rest
    else
      Except.error ⟨"AttributeError: PartialSnippet object has no attribute code"⟩

/-- The per-file extraction loop of `extract_from_repo` (lines 216-217):
`snippets.extend(extract(file))` with no exception handling, so the first
file whose extraction raises aborts the whole loop. Each file is modelled by
the outcome of `extract` on it: a snippet list or a raised error. -/
def extractFilesLoop : List (Except PyError (List PartialSnippet)) →
    Except PyError (List PartialSnippet)
  | [] => Except.ok []
  | f :: rest =>
    match f with
    | Except.error e => Except.error e
    | Except.ok l =>
      match extractFilesLoop rest with
      | Except.error e => Except.error e
      | Except.ok ls => Except.ok (l ++ ls)

/-- `importer.py` `extract_from_repo`: run `extract` over every scanned file,
then run the promotion loop on the collected partial snippets. An extraction
error in any file, or the promotion loop's constructor error, propagates out
of the function. -/
def extract_from_repo (library : Library) (version : String)
    (relTo : String → String)
    (files : List (Except PyError (List PartialSnippet))) :
    Except PyError (List Snippet) :=
  match extractFilesLoop files with
  | Except.error e => Except.error e
  | Except.ok snippets => extractFromRepoPromote library version relTo snippets

/- ===================== importer.py: snippet-directory driver ===================== -/

/-- One entry of a snippet directory as `iterdir()` yields it: its file name,
whether it is a regular file, and its text content (meaningful only for
files). -/
structure DirEntry where
  name : String
  isFile : Bool
  content : String
deriving DecidableEq, Repr

/-- One directory matched by the `**/_description.md` glob: the content of
its `_description.md` marker and its sibling entries. -/
structure SnipDir where
  description : String
  entries : List DirEntry
deriving DecidableEq, Repr

/-- The sibling loop of `extract_from_snipdir` for one directory
(`importer.py:275-300`): skip non-files (with a warning) and the marker
itself, skip a sibling whose file stem differs from the library's language;
for the first sibling that matches, the `Snippet(...)` call raises
`pydantic.ValidationError` against `models.py`'s `Snippet` (the call passes
`code=` and omits the required `category`, `sub_category` and `snippet`
fields), so no `Snippet` is ever appended. -/
def snipdirEntriesLoop (library : Library) : List DirEntry → Except PyError (List Snippet)
  | [] => Except.ok []
  | e :: rest =>
    if e.isFile = false then snipdirEntriesLoop library rest
    else if e.name = "_description.md" then snipdirEntriesLoop library rest
    else if pyStem e.name ≠ library.language then snipdirEntriesLoop library rest
    else Except.error ⟨"pydantic.ValidationError: 3 validation errors for Snippet"⟩

/-- The per-directory body of `extract_from_snipdir`: read the description,
then run the sibling loop (the description is only consumed inside the
`Snippet(...)` call, which raises before any snippet is built). -/
def snipdirEntries (library : Library) (_version : String)
    (_relTo : String → String) (d : SnipDir) : Except PyError (List Snippet) :=
  snipdirEntriesLoop library d.entries

/-- `importer.py` `extract_from_snipdir`: iterate the directories matched by
the `**/_description.md` glob, extending one snippet list; an exception in
any directory's sibling loop propagates and aborts the whole function. -/
def extract_from_snipdir (library : Library) (version : String)
    (relTo : String → String) : List SnipDir → Except PyError (List Snippet)
  | [] => Except.ok []
  | d :: rest =>
    match snipdirEntries library version relTo d with
    | Except.error e => Except.error e
    | Except.ok l =>
      match extract_from_snipdir library version relTo rest with
      | Except.error e => Except.error e
      | Except.ok ls => Except.ok (l ++ ls)

/- ===================== importer.py: website crawler ===================== -/

/-- The candidate links one fetched page contributes to the queue, before the
visited-set check: the page's links that start with the source URL, with any
`#fragment` stripped (`importer.py:334`). -/
def pageLinks (links : String → List String) (siteUrl url : String) : List String :=
  ((links url).filter (fun l => pyStartswith l siteUrl)).map stripFragment

/-- The crawl loop of `importer.py` `extract_from_website` (lines 327-347).
The deque is pushed and popped at the same end, so it behaves as a stack and
is modelled with its top at the head; `queue.extend(links)` therefore pushes
the reversed link list. `cache` is the visited-set, checked before every
fetch; a popped URL already in it is discarded. The function returns the
sequence of URLs actually fetched, in fetch order, and is given structural
fuel so that the kernel can evaluate it; `none` reports exhausted fuel. -/
def crawlLoop (links : String → List String) (siteUrl : String) :
    Nat → List String → List String → Option (List String)
  | _, _, [] => some []
  | 0, _, _ :: _ => none
  | fuel + 1, cache, url :: rest =>
    if url ∈ cache then crawlLoop links siteUrl fuel cache rest
    else
      let newCache := url :: cache
      let newLinks :=
        ((links url).filter (fun l => decide (l ∉ newCache) && pyStartswith l siteUrl)).map
          stripFragment
      match crawlLoop links siteUrl fuel newCache (newLinks.reverse ++ rest) with
      | none => none
      | some order => some (url :: order)

/-- Fuel sufficient for a crawl over a universe `U` of URLs: one step for the
start URL plus, for every URL of the universe, one step for its fetch and one
per link it can push. -/
def crawlFuel (links : String → List String) (U : List String) : Nat :=
  1 + (U.map (fun u => 1 + (links u).length)).sum

/-- `importer.py` `extract_from_website`, reduced to its crawl: the fetched
pages in fetch order, starting from the source URL with an empty visited-set,
running for at most `fuel` loop iterations. -/
def extract_from_website_visits (links : String → List String)
    (sourceUrl : String) (fuel : Nat) : Option (List String) :=
  crawlLoop links sourceUrl fuel [] [sourceUrl]

/- ===================== importer.py: upsert gateway ===================== -/

/-- One point as `upsert_snippets` sends it to the store: the deterministic
id, the named-vector dictionary (empty or a single entry), and the payload
`{"document": ..., "metadata": ...}`. `V` is the embedding vector type. -/
structure UpsertPoint (V : Type) where
  id : String
  vector : List (String × V)
  document : String
  metadata : List (String × String)
deriving DecidableEq, Repr

/-- The body of the upload loop of `importer.py` `upsert_snippets`
(lines 393-416): start from an empty vector dictionary, add the embedding of
the description under the provider's vector name only when the description
is nonempty, and upsert under `snippet.uuid` with the document/metadata
payload. -/
def mkUpsertPoint (embed : String → V) (vectorName : String) (s : Snippet) : UpsertPoint V :=
  { id := s.uuid,
    vector := if s.description ≠ "" then [(vectorName, embed s.description)] else [],
    document := s.document,
    metadata := s.metadata }

/-- `importer.py` `upsert_snippets`: one point per snippet, in order. -/
def upsert_snippets (embed : String → V) (vectorName : String)
    (snippets : List Snippet) : List (UpsertPoint V) :=
  snippets.map (mkUpsertPoint embed vectorName)

/-- The point identifiers a run of `upsert_snippets` writes. -/
def upsertPointIds (snippets : List Snippet) : List String :=
  snippets.map Snippet.uuid

/- ===================== concrete inputs used by the theorems ===================== -/

/-- A library whose target language is `python`, as configured in a library
json file. -/
def pyLib : Library :=
  { name := "demo", github := "https://github.com/demo/demo", language := "python" }

/-- The snippet directory of the spec's example: a `_description.md` marker
with `python.md` and `go.md` siblings. -/
def demoDir : SnipDir :=
  { description := "shared description",
    entries := [⟨"_description.md", true, "shared description"⟩,
                ⟨"python.md", true, "pycode"⟩,
                ⟨"go.md", true, "gocode"⟩] }

/-- The same directory without the `python.md` sibling: no sibling matches a
`python` library's language. -/
def goOnlyDir : SnipDir :=
  { description := "shared description",
    entries := [⟨"_description.md", true, "shared description"⟩,
                ⟨"go.md", true, "gocode"⟩] }

/-- A concrete snippet. -/
def snipA : Snippet :=
  { category := "create_collection", sub_category := "basic", language := "python",
    snippet := "client.create(a)", description := "make a collection",
    package_name := "qdrant-client", version := "1.12.3", source := "docs/a.md" }

/-- The same snippet with a different code body only: every identity field of
the spec's canonical tuple agrees with `snipA`. -/
def snipB : Snippet :=
  { category := "create_collection", sub_category := "basic", language := "python",
    snippet := "client.create(b)", description := "make a collection",
    package_name := "qdrant-client", version := "1.12.3", source := "docs/a.md" }

/-- A field-for-field copy of `snipA`, written out separately: the snippet an
unchanged second ingestion run rebuilds. -/
def snipA2 : Snippet :=
  { category := "create_collection", sub_category := "basic", language := "python",
    snippet := "client.create(a)", description := "make a collection",
    package_name := "qdrant-client", version := "1.12.3", source := "docs/a.md" }

/-- A snippet whose description (and hence document) is empty. -/
def snipNoDoc : Snippet :=
  { category := "", sub_category := "", language := "python",
    snippet := "x = 1", description := "",
    package_name := "demo", version := "1.0.0", source := "docs/b.md" }

/-- A partial snippet as a well-formed markdown file with one `python` fence
yields it. -/
def okFilePS : PartialSnippet :=
  { category := some "", description := some "Quickstart",
    snippet := "x = 1\n", language := some "python", source := "docs/good.md" }

/-- A two-page site with a cycle: the start page links to a subpage (through
a fragment link), and the subpage links back to the start and to itself. -/
def demoLinks : String → List String :=
  fun u =>
    if u = "https://site" then ["https://site/a#top"]
    else if u = "https://site/a" then ["https://site", "https://site/a"]
    else []

/-- The URL universe of `demoLinks`. -/
def demoU : List String :=
  ["https://site", "https://site/a"]

/-- Termination potential of a crawl state over a URL universe `U`: the queue
length plus, for every not-yet-visited URL of the universe, one fetch step
and one step per link it could push. -/
def crawlPotential (links : String → List String) (U cache queue : List String) : Nat :=
  queue.length +
    ((U.filter (fun u => decide (u ∉ cache))).map (fun u => 1 + (links u).length)).sum

/- ===================== helper lemmas ===================== -/

theorem mem_insertStable {le : α → α → Bool} {x a : α} {l : List α} :
    x ∈ insertStable le a l ↔ x = a ∨ x ∈ l := by
  induction l with
  | nil => simp [insertStable]
  | cons y ys ih =>
    simp only [insertStable]
    by_cases hle : le a y = true
    · simp [hle]
    · simp only [if_neg hle, List.mem_cons, ih]
      tauto

theorem mem_pySorted {le : α → α → Bool} {x : α} {l : List α} :
    x ∈ pySorted le l ↔ x ∈ l := by
  induction l with
  | nil => simp [pySorted]
  | cons y ys ih =>
    simp only [pySorted, mem_insertStable, List.mem_cons, ih]

theorem extractTreeGo_description_isSome (source : String) :
    ∀ (nodes : List MdNode) (h p : Option String),
      ∀ ps ∈ extractTreeGo source nodes h p, ps.description.isSome = true := by
  intro nodes
  induction nodes with
  | nil => intro h p ps hps; simp [extractTreeGo] at hps
  | cons node rest ih =>
    intro h p ps hps
    cases node with
    | fence info content =>
      rcases List.mem_cons.mp hps with heq | hmem
      · subst heq; rfl
      · exact ih h p ps hmem
    | codeBlock content =>
      rcases List.mem_cons.mp hps with heq | hmem
      · subst heq; rfl
      · exact ih h p ps hmem
    | heading children =>
      rcases children with _ | ⟨c, cs⟩
      · exact ih h p ps hps
      · rcases hcc : c.children with _ | ⟨t, ts⟩
        · rw [extractTreeGo, hcc] at hps
          exact ih h p ps hps
        · rw [extractTreeGo, hcc] at hps
          exact ih _ _ ps hps
    | paragraph children =>
      rcases children with _ | ⟨c, cs⟩
      · exact ih h p ps hps
      · exact ih h _ ps hps
    | other => exact ih h p ps hps

theorem extractTreeGo_language_none (source : String) :
    ∀ (nodes : List MdNode) (h p : Option String),
      ∀ ps ∈ extractTreeGo source nodes h p, ps.language = none →
        ∃ c, MdNode.codeBlock c ∈ nodes ∧ ps.snippet = c := by
  intro nodes
  induction nodes with
  | nil => intro h p ps hps; simp [extractTreeGo] at hps
  | cons node rest ih =>
    intro h p ps hps hlang
    cases node with
    | fence info content =>
      rcases List.mem_cons.mp hps with heq | hmem
      · subst heq; simp at hlang
      · obtain ⟨c, hc, hs⟩ := ih h p ps hmem hlang
        exact ⟨c, List.mem_cons_of_mem _ hc, hs⟩
    | codeBlock content =>
      rcases List.mem_cons.mp hps with heq | hmem
      · subst heq; exact ⟨content, List.mem_cons_self _ _, rfl⟩
      · obtain ⟨c, hc, hs⟩ := ih h p ps hmem hlang
        exact ⟨c, List.mem_cons_of_mem _ hc, hs⟩
    | heading children =>
      rcases children with _ | ⟨c, cs⟩
      · obtain ⟨c, hc, hs⟩ := ih h p ps hps hlang
        exact ⟨c, List.mem_cons_of_mem _ hc, hs⟩
      · rcases hcc : c.children with _ | ⟨t, ts⟩
        · rw [extractTreeGo, hcc] at hps
          obtain ⟨c', hc, hs⟩ := ih h p ps hps hlang
          exact ⟨c', List.mem_cons_of_mem _ hc, hs⟩
        · rw [extractTreeGo, hcc] at hps
          obtain ⟨c', hc, hs⟩ := ih _ _ ps hps hlang
          exact ⟨c', List.mem_cons_of_mem _ hc, hs⟩
    | paragraph children =>
      rcases children with _ | ⟨c, cs⟩
      · obtain ⟨c, hc, hs⟩ := ih h p ps hps hlang
        exact ⟨c, List.mem_cons_of_mem _ hc, hs⟩
      · obtain ⟨c', hc, hs⟩ := ih h _ ps hps hlang
        exact ⟨c', List.mem_cons_of_mem _ hc, hs⟩
    | other =>
      obtain ⟨c, hc, hs⟩ := ih h p ps hps hlang
      exact ⟨c, List.mem_cons_of_mem _ hc, hs⟩

/- ===================== claim theorems ===================== -/

/-- C10: every `PartialSnippet` the markdown-tree extractor emits has a
(non-null) string description — the concatenation of the current heading and
paragraph with absent cells replaced by the empty string; a null language
arises only from indented code blocks; and a fenced block always yields
`language = some info`, so a fence with no info string yields the empty
string, not null. -/
theorem extractor_language_description_never_null (root : List MdNode) (source : String) :
    (∀ ps ∈ extract_from_markdown_tree root source, ps.description.isSome = true) ∧
    (∀ ps ∈ extract_from_markdown_tree root source, ps.language = none →
      ∃ c, MdNode.codeBlock c ∈ root ∧ ps.snippet = c) ∧
    ∀ info content rest,
      (extract_from_markdown_tree (MdNode.fence info content :: rest) source).head? =
        some { category := some "", description := some "", snippet := content,
               language := some info, source := source } := by
  refine ⟨?_, ?_, ?_⟩
  · exact extractTreeGo_description_isSome source root none none
  · exact extractTreeGo_language_none source root none none
  · intro info content rest
    rfl

/-- C10 witness: on a document consisting of a bare fence (no info string)
followed by an indented code block, both emitted snippets have non-null
descriptions, the null-language snippet is the indented block's, and the
fence yields `language = some ""`. -/
theorem extractor_language_description_never_null_witness :
    (∀ ps ∈ extract_from_markdown_tree [MdNode.fence "" "a\n", MdNode.codeBlock "b\n"] "f.md",
      ps.description.isSome = true) ∧
    (∀ ps ∈ extract_from_markdown_tree [MdNode.fence "" "a\n", MdNode.codeBlock "b\n"] "f.md",
      ps.language = none →
        ∃ c, MdNode.codeBlock c ∈ [MdNode.fence "" "a\n", MdNode.codeBlock "b\n"] ∧ ps.snippet = c) ∧
    (extract_from_markdown_tree [MdNode.fence "" "a\n", MdNode.codeBlock "b\n"] "f.md").head? =
      some { category := some "", description := some "", snippet := "a\n",
             language := some "", source := "f.md" } := by
  obtain ⟨h1, h2, h3⟩ :=
    extractor_language_description_never_null [MdNode.fence "" "a\n", MdNode.codeBlock "b\n"] "f.md"
  exact ⟨h1, h2, h3 "" "a\n" [MdNode.codeBlock "b\n"]⟩

/-- C1 counterexample: a fenced block with no info string reaches the
repository driver as a `PartialSnippet` with declared language `some ""`
(present, not null), and the promotion loop of `extract_from_repo` drops it
when the library's target language is `python`, completing with an empty
snippet list — the claim instead requires it to be kept and labeled
`python`. -/
theorem repo_driver_drops_no_info_fence :
    extract_from_markdown_tree [MdNode.fence "" "print(1)\n"] "README.md" =
      [{ category := some "", description := some "", snippet := "print(1)\n",
         language := some "", source := "README.md" }] ∧
    extractFromRepoPromote pyLib "1.0.0" (fun s => s)
      (extract_from_markdown_tree [MdNode.fence "" "print(1)\n"] "README.md") =
      Except.ok [] := by
  exact ⟨rfl, rfl⟩

/-- C1 amended: in the promotion loop of `extract_from_repo`, a
`PartialSnippet` whose declared language is present — including the empty
string that a fence with no info string declares — and differs from the
library's language is dropped before anything of it is evaluated, and a
list of only such snippets yields the empty snippet list; but no snippet is
ever kept and labeled: for any snippet that passes the filter (no declared
language, or the matching language) the loop raises at the `Snippet`
construction, whose keyword `code=snippet.code` reads an attribute that
`PartialSnippet` does not have. -/
theorem repo_driver_language_filtering (library : Library) (version : String)
    (relTo : String → String) (ps : PartialSnippet) (snips : List PartialSnippet) :
    (∀ l, ps.language = some l → l ≠ library.language →
      extractFromRepoPromote library version relTo [ps] = Except.ok []) ∧
    ((∀ q ∈ snips, q.language ≠ none ∧ q.language ≠ some library.language) →
      extractFromRepoPromote library version relTo snips = Except.ok []) ∧
    (ps ∈ snips → (ps.language = none ∨ ps.language = some library.language) →
      ∃ e, extractFromRepoPromote library version relTo snips = Except.error e) := by
  refine ⟨?_, ?_, ?_⟩
  · intro l hl hne
    have hcond : ps.language ≠ none ∧ ps.language ≠ some library.language := by
      rw [hl]
      exact ⟨by simp, by simpa using hne⟩
    simp only [extractFromRepoPromote]
    rw [if_pos hcond]
  · induction snips with
    | nil => intro _; rfl
    | cons q rest ih =>
      intro hall
      have hq := hall q (List.mem_cons_self _ _)
      simp only [extractFromRepoPromote]
      rw [if_pos hq]
      exact ih (fun x hx => hall x (List.mem_cons_of_mem _ hx))
  · induction snips with
    | nil =>
      intro h
      simp at h
    | cons q rest ih =>
      intro hmem hpass
      by_cases hq : q.language ≠ none ∧ q.language ≠ some library.language
      · rcases List.mem_cons.mp hmem with heq | hmem2
        · exfalso
          subst heq
          rcases hpass with h | h
          · exact hq.1 h
          · exact hq.2 h
        · obtain ⟨e, he⟩ := ih hmem2 hpass
          refine ⟨e, ?_⟩
          simp only [extractFromRepoPromote]
          rw [if_pos hq, he]
      · refine ⟨⟨"AttributeError: PartialSnippet object has no attribute code"⟩, ?_⟩
        simp only [extractFromRepoPromote]
        rw [if_neg hq]

/-- C1 witness: a `java` fence is dropped (empty result, no error) when the
library's language is `python`, while an indented block — no declared
language, so it passes the filter — makes the loop raise at the `Snippet`
construction. -/
theorem repo_driver_language_filtering_witness :
    extractFromRepoPromote pyLib "1.0.0" (fun s => s)
      [{ category := some "", description := some "ctx", snippet := "y=1",
         language := some "java", source := "a.md" }] = Except.ok [] ∧
    ∃ e, extractFromRepoPromote pyLib "1.0.0" (fun s => s)
      [{ category := some "", description := some "ctx", snippet := "x=1",
         language := none, source := "a.md" }] = Except.error e := by
  constructor
  · exact (repo_driver_language_filtering pyLib "1.0.0" (fun s => s)
      { category := some "", description := some "ctx", snippet := "y=1",
        language := some "java", source := "a.md" } []).1 "java" rfl (by decide)
  · exact (repo_driver_language_filtering pyLib "1.0.0" (fun s => s)
      { category := some "", description := some "ctx", snippet := "x=1",
        language := none, source := "a.md" }
      [{ category := some "", description := some "ctx", snippet := "x=1",
         language := none, source := "a.md" }]).2.2
      (List.mem_cons_self _ _) (Or.inl rfl)

theorem snipdirEntriesLoop_ok (library : Library) :
    ∀ entries : List DirEntry,
      (∀ e ∈ entries, e.isFile = true → e.name ≠ "_description.md" →
        pyStem e.name ≠ library.language) →
      snipdirEntriesLoop library entries = Except.ok [] := by
  intro entries
  induction entries with
  | nil => intro _; rfl
  | cons q rest ih =>
    intro hall
    have hrest := ih (fun e he => hall e (List.mem_cons_of_mem _ he))
    by_cases c1 : q.isFile = false
    · simp only [snipdirEntriesLoop]
      rw [if_pos c1]
      exact hrest
    · by_cases c2 : q.name = "_description.md"
      · simp only [snipdirEntriesLoop]
        rw [if_neg c1, if_pos c2]
        exact hrest
      · have c3 : pyStem q.name ≠ library.language :=
          hall q (List.mem_cons_self _ _) (Bool.not_eq_false _ ▸ c1) c2
        simp only [snipdirEntriesLoop]
        rw [if_neg c1, if_neg c2, if_pos c3]
        exact hrest

theorem snipdirEntriesLoop_raises (library : Library) :
    ∀ entries : List DirEntry,
      (∃ e ∈ entries, e.isFile = true ∧ e.name ≠ "_description.md" ∧
        pyStem e.name = library.language) →
      ∃ err, snipdirEntriesLoop library entries = Except.error err := by
  intro entries
  induction entries with
  | nil =>
    intro h
    simp at h
  | cons q rest ih =>
    intro hex
    obtain ⟨e, hemem, he1, he2, he3⟩ := hex
    by_cases c1 : q.isFile = false
    · rcases List.mem_cons.mp hemem with heq | hmem
      · exfalso
        subst heq
        rw [he1] at c1
        exact Bool.noConfusion c1
      · obtain ⟨err, herr⟩ := ih ⟨e, hmem, he1, he2, he3⟩
        refine ⟨err, ?_⟩
        simp only [snipdirEntriesLoop]
        rw [if_pos c1, herr]
    · by_cases c2 : q.name = "_description.md"
      · rcases List.mem_cons.mp hemem with heq | hmem
        · exfalso
          subst heq
          exact he2 c2
        · obtain ⟨err, herr⟩ := ih ⟨e, hmem, he1, he2, he3⟩
          refine ⟨err, ?_⟩
          simp only [snipdirEntriesLoop]
          rw [if_neg c1, if_pos c2, herr]
      · by_cases c3 : pyStem q.name ≠ library.language
        · rcases List.mem_cons.mp hemem with heq | hmem
          · exfalso
            subst heq
            exact c3 he3
          · obtain ⟨err, herr⟩ := ih ⟨e, hmem, he1, he2, he3⟩
            refine ⟨err, ?_⟩
            simp only [snipdirEntriesLoop]
            rw [if_neg c1, if_neg c2, if_pos c3, herr]
        · refine ⟨⟨"pydantic.ValidationError: 3 validation errors for Snippet"⟩, ?_⟩
          simp only [snipdirEntriesLoop]
          rw [if_neg c1, if_neg c2, if_neg c3]

/-- C6 counterexample: on the spec's example directory — `_description.md`
plus `python.md` and `go.md` — with the library's language `python`,
`extract_from_snipdir` does not yield two snippets: `go.md` would be skipped
by the unconditional `if language != library.language: continue`, and the
`python.md` sibling reaches the `Snippet(...)` call, which raises
`pydantic.ValidationError` against `models.py`'s `Snippet`, so the driver
raises and returns no snippet list at all. -/
theorem snipdir_driver_raises_not_two :
    extract_from_snipdir pyLib "1.0.0" (fun n => n) [demoDir] =
      Except.error ⟨"pydantic.ValidationError: 3 validation errors for Snippet"⟩ ∧
    ∀ l, extract_from_snipdir pyLib "1.0.0" (fun n => n) [demoDir] ≠ Except.ok l := by
  refine ⟨rfl, ?_⟩
  intro l h
  have h1 : extract_from_snipdir pyLib "1.0.0" (fun n => n) [demoDir] =
      Except.error ⟨"pydantic.ValidationError: 3 validation errors for Snippet"⟩ := rfl
  rw [h1] at h
  exact Except.noConfusion h

/-- C6 amended: `extract_from_snipdir` yields no snippets: when every
regular sibling file of every scanned directory has a file stem differing
from the library's language, every sibling is skipped and the result is the
empty snippet list; and as soon as any directory has a regular sibling file
(other than the marker) whose stem equals the library's language, that
sibling's `Snippet(...)` call raises against `models.py`'s `Snippet` model
and the extraction aborts with the exception — on the example directory
with target `python`, `go.md` is filtered and `python.md` raises. -/
theorem snipdir_driver_language_selection (library : Library) (version : String)
    (relTo : String → String) (dirs : List SnipDir) :
    ((∀ d ∈ dirs, ∀ e ∈ d.entries, e.isFile = true → e.name ≠ "_description.md" →
        pyStem e.name ≠ library.language) →
      extract_from_snipdir library version relTo dirs = Except.ok []) ∧
    ((∃ d ∈ dirs, ∃ e ∈ d.entries, e.isFile = true ∧ e.name ≠ "_description.md" ∧
        pyStem e.name = library.language) →
      ∃ err, extract_from_snipdir library version relTo dirs = Except.error err) := by
  constructor
  · induction dirs with
    | nil => intro _; rfl
    | cons d rest ih =>
      intro hall
      have hd : snipdirEntries library version relTo d = Except.ok [] :=
        snipdirEntriesLoop_ok library d.entries
          (fun e he => hall d (List.mem_cons_self _ _) e he)
      have hrest := ih (fun x hx => hall x (List.mem_cons_of_mem _ hx))
      simp only [extract_from_snipdir]
      rw [hd, hrest]
      rfl
  · induction dirs with
    | nil =>
      intro h
      simp at h
    | cons d rest ih =>
      intro hex
      obtain ⟨d2, hd2mem, hwit⟩ := hex
      rcases List.mem_cons.mp hd2mem with heq | hmem
      · subst heq
        obtain ⟨err, herr⟩ := snipdirEntriesLoop_raises library d2.entries hwit
        refine ⟨err, ?_⟩
        simp only [extract_from_snipdir, snipdirEntries] at herr ⊢
        rw [herr]
      · cases hd : snipdirEntries library version relTo d with
        | error e =>
          refine ⟨e, ?_⟩
          simp only [extract_from_snipdir]
          rw [hd]
        | ok l =>
          obtain ⟨err, herr⟩ := ih ⟨d2, hmem, hwit⟩
          refine ⟨err, ?_⟩
          simp only [extract_from_snipdir]
          rw [hd, herr]

/-- C6 amended witness: the directory with only the `go.md` sibling yields
the empty snippet list, and the example directory with the `python.md`
sibling makes the extraction raise. -/
theorem snipdir_driver_language_selection_witness :
    extract_from_snipdir pyLib "1.0.0" (fun n => n) [goOnlyDir] = Except.ok [] ∧
    ∃ err, extract_from_snipdir pyLib "1.0.0" (fun n => n) [demoDir] =
      Except.error err := by
  constructor
  · exact (snipdir_driver_language_selection pyLib "1.0.0" (fun n => n) [goOnlyDir]).1
      (by decide)
  · exact (snipdir_driver_language_selection pyLib "1.0.0" (fun n => n) [demoDir]).2
      (by decide)

/-- C9: the upload loop of `upsert_snippets` writes a point with an empty
vector dictionary — payload only — exactly when the snippet's document (its
description, the embedding input) is the empty string; a snippet with a
non-empty document gets the embedding of that document under the provider's
vector name. -/
theorem upsert_payload_only_on_empty_document {V : Type} (embed : String → V)
    (vectorName : String) (s : Snippet) :
    (s.document = "" → (mkUpsertPoint embed vectorName s).vector = []) ∧
    (s.document ≠ "" → (mkUpsertPoint embed vectorName s).vector =
      [(vectorName, embed s.document)]) := by
  constructor
  · intro hd
    simp [mkUpsertPoint, Snippet.document] at hd ⊢
    simp [hd]
  · intro hd
    simp [mkUpsertPoint, Snippet.document] at hd ⊢
    simp [hd]

/-- C9 witness: a snippet with empty description is upserted without a
vector, and `snipA` (non-empty description) with the identity embedding gets
its description embedded under the vector name. -/
theorem upsert_payload_only_on_empty_document_witness :
    (mkUpsertPoint (fun t => t) "fast-bge" snipNoDoc).vector = [] ∧
    (mkUpsertPoint (fun t => t) "fast-bge" snipA).vector =
      [("fast-bge", "make a collection")] := by
  constructor
  · exact (upsert_payload_only_on_empty_document (fun t => t) "fast-bge" snipNoDoc).1 rfl
  · exact (upsert_payload_only_on_empty_document (fun t => t) "fast-bge" snipA).2 (by decide)

/-- Field-for-field equality of two snippets, as a second ingestion run of
unchanged source content rebuilds them. -/
def snippetFieldsEq (a b : Snippet) : Prop :=
  a.category = b.category ∧ a.sub_category = b.sub_category ∧
  a.language = b.language ∧ a.snippet = b.snippet ∧
  a.description = b.description ∧ a.package_name = b.package_name ∧
  a.version = b.version ∧ a.source = b.source

/-- C2: the point identifier of a snippet is a deterministic function of its
field values — field-for-field equal snippet lists, as two ingestion runs of
unchanged content produce them, are upserted under identical point-identifier
lists, and the identifiers a run writes are exactly the snippets' uuids. -/
theorem upsert_idempotent_point_ids {V : Type} (embed : String → V) (vectorName : String)
    (run1 run2 : List Snippet) (h : List.Forall₂ snippetFieldsEq run1 run2) :
    upsertPointIds run1 = upsertPointIds run2 ∧
    (upsert_snippets embed vectorName run1).map (fun p => p.id) = upsertPointIds run1 := by
  constructor
  · induction h with
    | nil => rfl
    | cons hab _ ih =>
      rename_i a b l1 l2 _
      obtain ⟨h1, h2, h3, h4, h5, h6, h7, h8⟩ := hab
      have hab' : a = b := by
        cases a; cases b
        simp_all
      simp only [upsertPointIds, List.map_cons, hab']
      simpa [upsertPointIds] using ih
  · simp [upsert_snippets, upsertPointIds, mkUpsertPoint]

/-- C2 witness: `snipA2` is a separately written field-for-field copy of
`snipA`; the two one-snippet runs produce the same identifier list. -/
theorem upsert_idempotent_point_ids_witness :
    upsertPointIds [snipA] = upsertPointIds [snipA2] ∧
    (upsert_snippets (fun t => t) "fast-bge" [snipA]).map (fun p => p.id) =
      upsertPointIds [snipA] := by
  exact upsert_idempotent_point_ids (fun t => t) "fast-bge" [snipA] [snipA2]
    (List.Forall₂.cons ⟨rfl, rfl, rfl, rfl, rfl, rfl, rfl, rfl⟩ List.Forall₂.nil)

set_option maxRecDepth 100000 in
/-- C3 counterexample: `snipA` and `snipB` agree on category, sub-category,
language, package name and version — the canonical tuple the claim names —
and differ only in the code body, yet `Snippet.uuid` assigns them different
point identifiers, because `str(self)` hashes every field. -/
theorem uuid_differs_despite_equal_identity_fields :
    snipA.category = snipB.category ∧ snipA.sub_category = snipB.sub_category ∧
    snipA.language = snipB.language ∧ snipA.package_name = snipB.package_name ∧
    snipA.version = snipB.version ∧ snipA.source = snipB.source ∧
    snipA.uuid ≠ snipB.uuid := by
  refine ⟨rfl, rfl, rfl, rfl, rfl, rfl, ?_⟩
  decide

/-- C3 amended: the point identifier is the UUID built from the first 16
bytes of the SHA-256 hash of the snippet's full pydantic string
representation — the same derivation as `generate_uuid_from_content` of
`encode_snippets.py`, but applied to `str(self)`, which covers every field —
so only snippets that agree on all eight fields are guaranteed the same
identifier. -/
theorem uuid_from_hash_of_full_repr (a b : Snippet) (h : snippetFieldsEq a b) :
    a.uuid = generate_uuid_from_content (pyStrOfSnippet a) ∧
    a.uuid = b.uuid := by
  constructor
  · rfl
  · obtain ⟨h1, h2, h3, h4, h5, h6, h7, h8⟩ := h
    have hab : a = b := by
      cases a; cases b
      simp_all
    rw [hab]

/-- C3 amended witness: applied to `snipA` and its field-for-field copy. -/
theorem uuid_from_hash_of_full_repr_witness :
    snipA.uuid = generate_uuid_from_content (pyStrOfSnippet snipA) ∧
    snipA.uuid = snipA2.uuid := by
  exact uuid_from_hash_of_full_repr snipA snipA2 ⟨rfl, rfl, rfl, rfl, rfl, rfl, rfl, rfl⟩

/-- C4 counterexample: the tag `1.2.3v` is not a valid semantic version (with
or without an optional leading `v`), so under the claim the tag list
`["1.2.3v"]` has no valid tag and resolution must return `"unknown"`; but
`t.strip("v")` also removes trailing `v`s, the stripped text `1.2.3` is
valid, and the code returns the tag. -/
theorem tags_resolution_accepts_trailing_v :
    semverIsValid "1.2.3v" = false ∧
    semverIsValid (pyStripV "1.2.3v") = true ∧
    get_version ⟨VersionType.gh_tags, "https://github.com/demo/demo"⟩ NetOutcome.httpFail
      NetOutcome.httpFail (NetOutcome.value ["1.2.3v"]) = Except.ok "1.2.3v" ∧
    ("1.2.3v" : String) ≠ "unknown" := by
  exact ⟨by decide, by decide, rfl, by decide⟩

/-- C4 amended: VCS_TAGS resolution keeps the tags whose text is a valid
semantic version after stripping every leading and trailing `v` character
(so a tag like `1.2.3v` is also accepted, not only an optional leading `v`),
returns the maximum of the kept tags by semantic-version ordering of the
stripped text — `v1.10.0` for the spec's example set, by semantic rather
than lexical order — returns a tag from the fetched list whenever it does
not fall back, and returns `"unknown"` when no tag survives the filter. -/
theorem tags_resolution_semver_max (u : String) (pypiResp releaseResp : NetOutcome String)
    (tags : List String) :
    get_version ⟨VersionType.gh_tags, u⟩ pypiResp releaseResp
      (NetOutcome.value ["v1.2.0", "v1.10.0", "not-a-version"]) = Except.ok "v1.10.0" ∧
    (tags.filter (fun t => semverIsValid (pyStripV t)) = [] →
      get_version ⟨VersionType.gh_tags, u⟩ pypiResp releaseResp (NetOutcome.value tags) =
        Except.ok "unknown") ∧
    (∀ t, latestTagOf tags = some t → t ∈ tags) := by
  refine ⟨rfl, ?_, ?_⟩
  · intro h
    have hnone : latestTagOf tags = none := by
      simp [latestTagOf, h, pySorted]
    simp [get_version, getLatestGithubTag, hnone, pyOrUnknown, pyOrStr]
  · intro t ht
    simp only [latestTagOf] at ht
    rcases hrev : (pySorted tagLe (tags.filter (fun t => semverIsValid (pyStripV t)))).reverse
      with _ | ⟨x, xs⟩
    · rw [hrev] at ht
      cases ht
    · rw [hrev] at ht
      injection ht with ht
      subst ht
      have hx : x ∈ (pySorted tagLe (tags.filter (fun t => semverIsValid (pyStripV t)))).reverse := by
        rw [hrev]
        exact List.mem_cons_self _ _
      rw [List.mem_reverse, mem_pySorted] at hx
      exact List.mem_of_mem_filter hx

/-- C4 amended witness: the example tag set resolves to `v1.10.0`, a
valid-tag-free list resolves to `"unknown"`, and the selected tag is a member
of the fetched list. -/
theorem tags_resolution_semver_max_witness :
    get_version ⟨VersionType.gh_tags, "https://github.com/demo/demo"⟩ NetOutcome.httpFail
      NetOutcome.httpFail (NetOutcome.value ["v1.2.0", "v1.10.0", "not-a-version"]) =
        Except.ok "v1.10.0" ∧
    get_version ⟨VersionType.gh_tags, "https://github.com/demo/demo"⟩ NetOutcome.httpFail
      NetOutcome.httpFail (NetOutcome.value ["not-a-version"]) = Except.ok "unknown" ∧
    "v1.10.0" ∈ ["v1.2.0", "v1.10.0", "not-a-version"] := by
  refine ⟨(tags_resolution_semver_max "https://github.com/demo/demo" NetOutcome.httpFail
      NetOutcome.httpFail []).1, ?_, ?_⟩
  · exact (tags_resolution_semver_max "https://github.com/demo/demo" NetOutcome.httpFail
      NetOutcome.httpFail ["not-a-version"]).2.1 (by decide)
  · exact (tags_resolution_semver_max "https://github.com/demo/demo" NetOutcome.httpFail
      NetOutcome.httpFail ["v1.2.0", "v1.10.0", "not-a-version"]).2.2 "v1.10.0" (by decide)

/-- C5 counterexample: a PACKAGE_REGISTRY (PyPI) resolution whose network
call raises a connection error — or whose successful response has a
malformed body — propagates the exception out of `get_version` instead of
returning a string; `"unknown"` covers only a completed non-success HTTP
response. -/
theorem resolve_raises_on_connection_failure :
    get_version ⟨VersionType.pypi, "qdrant-client"⟩ NetOutcome.netRaise NetOutcome.httpFail
      (NetOutcome.value []) = Except.error ⟨"requests.ConnectionError"⟩ ∧
    (∀ s, get_version ⟨VersionType.pypi, "qdrant-client"⟩ NetOutcome.netRaise NetOutcome.httpFail
      (NetOutcome.value []) ≠ Except.ok s) ∧
    get_version ⟨VersionType.pypi, "qdrant-client"⟩ NetOutcome.jsonRaise NetOutcome.httpFail
      (NetOutcome.value []) = Except.error ⟨"requests.JSONDecodeError"⟩ := by
  refine ⟨rfl, ?_, rfl⟩
  intro s h
  have h1 : get_version ⟨VersionType.pypi, "qdrant-client"⟩ NetOutcome.netRaise NetOutcome.httpFail
      (NetOutcome.value []) = Except.error ⟨"requests.ConnectionError"⟩ := rfl
  rw [h1] at h
  exact Except.noConfusion h

/-- C5 amended: version resolution returns a fixed version verbatim, returns
`"unknown"` for a registry or tag lookup that completes with a non-success
HTTP response, and a PACKAGE_REGISTRY resolution never consults the tag
lookup (no fallback to tags); but a raised connection error makes the PyPI
branch raise rather than return a string. -/
theorem resolve_fallback_behavior (vb : VersionBy) (name u : String)
    (p r : NetOutcome String) (t t1 t2 : NetOutcome (List String)) :
    (vb.version_type = VersionType.version → get_version vb p r t = Except.ok vb.value) ∧
    get_version ⟨VersionType.pypi, name⟩ NetOutcome.httpFail r t = Except.ok "unknown" ∧
    get_version ⟨VersionType.pypi, name⟩ p r t1 = get_version ⟨VersionType.pypi, name⟩ p r t2 ∧
    (∃ e, get_version ⟨VersionType.pypi, name⟩ NetOutcome.netRaise r t = Except.error e) ∧
    get_version ⟨VersionType.gh_tags, u⟩ p r NetOutcome.httpFail = Except.ok "unknown" := by
  refine ⟨?_, rfl, rfl, ⟨_, rfl⟩, rfl⟩
  intro h
  simp [get_version, h]

/-- C5 amended witness: a fixed version policy returns its literal value even
when every network lookup would raise; a PyPI 404 yields `"unknown"`. -/
theorem resolve_fallback_behavior_witness :
    get_version ⟨VersionType.version, "latest"⟩ NetOutcome.netRaise NetOutcome.netRaise
      NetOutcome.netRaise = Except.ok "latest" ∧
    get_version ⟨VersionType.pypi, "qdrant-client"⟩ NetOutcome.httpFail NetOutcome.netRaise
      NetOutcome.netRaise = Except.ok "unknown" := by
  exact ⟨(resolve_fallback_behavior ⟨VersionType.version, "latest"⟩ "x" "y"
      NetOutcome.netRaise NetOutcome.netRaise NetOutcome.netRaise NetOutcome.netRaise
      NetOutcome.netRaise).1 rfl,
    (resolve_fallback_behavior ⟨VersionType.version, "latest"⟩ "qdrant-client" "y"
      NetOutcome.netRaise NetOutcome.netRaise NetOutcome.netRaise NetOutcome.netRaise
      NetOutcome.netRaise).2.1⟩

/-- C8 counterexample: a repository source with one well-formed file (holding
one python snippet) followed by one syntactically broken file: the unguarded
`snippets.extend(extract(file))` loop propagates the broken file's exception,
so `extract_from_repo` raises and returns no snippet list at all — the claim
instead requires the good file's snippets with the broken file skipped. -/
theorem broken_file_aborts_repo_extraction :
    extract_from_repo pyLib "1.0.0" (fun s => s)
      [Except.ok [okFilePS], Except.error ⟨"nbformat: docs/bad.ipynb is not valid JSON"⟩] =
      Except.error ⟨"nbformat: docs/bad.ipynb is not valid JSON"⟩ ∧
    ∀ l, extract_from_repo pyLib "1.0.0" (fun s => s)
      [Except.ok [okFilePS], Except.error ⟨"nbformat: docs/bad.ipynb is not valid JSON"⟩] ≠
        Except.ok l := by
  refine ⟨rfl, ?_⟩
  intro l h
  have h1 : extract_from_repo pyLib "1.0.0" (fun s => s)
      [Except.ok [okFilePS], Except.error ⟨"nbformat: docs/bad.ipynb is not valid JSON"⟩] =
      Except.error ⟨"nbformat: docs/bad.ipynb is not valid JSON"⟩ := rfl
  rw [h1] at h
  exact Except.noConfusion h

/-- C8 amended: the per-file extraction loop of `extract_from_repo` contains
nothing: whenever any scanned file's extraction raises, the whole source's
extraction raises (discarding every other file's snippets); and when every
file extracts cleanly, the source's outcome is exactly the promotion loop's
outcome on the concatenated snippets — the empty list if every snippet is
dropped by the language filter, an exception at the first kept snippet's
`Snippet` construction otherwise. -/
theorem repo_extraction_aborts_on_file_error (library : Library) (version : String)
    (relTo : String → String) (files : List (Except PyError (List PartialSnippet))) :
    ((∃ e, Except.error e ∈ files) →
      ∃ e, extract_from_repo library version relTo files = Except.error e) ∧
    ((∀ f ∈ files, ∃ l, f = Except.ok l) →
      ∃ snippets, extractFilesLoop files = Except.ok snippets ∧
        extract_from_repo library version relTo files =
          extractFromRepoPromote library version relTo snippets) := by
  have hloop : ((∃ e, Except.error e ∈ files) →
      ∃ e, extractFilesLoop files = Except.error e) ∧
      ((∀ f ∈ files, ∃ l, f = Except.ok l) → ∃ l, extractFilesLoop files = Except.ok l) := by
    induction files with
    | nil =>
      constructor
      · rintro ⟨e, he⟩
        simp at he
      · intro _
        exact ⟨[], rfl⟩
    | cons f rest ih =>
      constructor
      · rintro ⟨e, he⟩
        rcases List.mem_cons.mp he with heq | hmem
        · exact ⟨e, by simp [extractFilesLoop, ← heq]⟩
        · cases f with
          | error e2 => exact ⟨e2, rfl⟩
          | ok l =>
            obtain ⟨e2, he2⟩ := ih.1 ⟨e, hmem⟩
            exact ⟨e2, by simp [extractFilesLoop, he2]⟩
      · intro hall
        cases f with
        | error e2 =>
          obtain ⟨l, hl⟩ := hall (Except.error e2) (List.mem_cons_self _ _)
          exact absurd hl (by simp)
        | ok l =>
          obtain ⟨ls, hls⟩ := ih.2 (fun f hf => hall f (List.mem_cons_of_mem _ hf))
          exact ⟨l ++ ls, by simp [extractFilesLoop, hls]⟩
  constructor
  · intro hex
    obtain ⟨e, he⟩ := hloop.1 hex
    exact ⟨e, by simp [extract_from_repo, he]⟩
  · intro hall
    obtain ⟨l, hl⟩ := hloop.2 hall
    exact ⟨l, hl, by simp [extract_from_repo, hl]⟩

/-- C8 amended witness: with the broken notebook present the extraction
raises; with only the well-formed file, the file loop succeeds and the
source's outcome is the promotion loop's outcome on that file's snippets
(which itself raises at the kept `python` snippet's construction). -/
theorem repo_extraction_aborts_on_file_error_witness :
    (∃ e, extract_from_repo pyLib "1.0.0" (fun s => s)
      [Except.ok [okFilePS], Except.error ⟨"nbformat: docs/bad.ipynb is not valid JSON"⟩] =
        Except.error e) ∧
    (∃ snippets, extractFilesLoop [Except.ok [okFilePS]] = Except.ok snippets ∧
      extract_from_repo pyLib "1.0.0" (fun s => s) [Except.ok [okFilePS]] =
        extractFromRepoPromote pyLib "1.0.0" (fun s => s) snippets) := by
  constructor
  · exact (repo_extraction_aborts_on_file_error pyLib "1.0.0" (fun s => s)
      [Except.ok [okFilePS], Except.error ⟨"nbformat: docs/bad.ipynb is not valid JSON"⟩]).1
      ⟨⟨"nbformat: docs/bad.ipynb is not valid JSON"⟩,
        List.mem_cons_of_mem _ (List.mem_cons_self _ _)⟩
  · exact (repo_extraction_aborts_on_file_error pyLib "1.0.0" (fun s => s)
      [Except.ok [okFilePS]]).2 (fun f hf => by
        rcases List.mem_cons.mp hf with heq | hmem
        · exact ⟨[okFilePS], heq⟩
        · simp at hmem)

theorem crawlLoop_nil (links : String → List String) (site : String) (fuel : Nat)
    (cache : List String) : crawlLoop links site fuel cache [] = some [] := by
  cases fuel <;> rfl

theorem crawlLoop_succ (links : String → List String) (site : String) (fuel : Nat)
    (cache : List String) (url : String) (rest : List String) :
    crawlLoop links site (fuel + 1) cache (url :: rest) =
      if url ∈ cache then crawlLoop links site fuel cache rest
      else
        match crawlLoop links site fuel (url :: cache)
          (((((links url).filter
              (fun l => decide (l ∉ url :: cache) && pyStartswith l site)).map
                stripFragment)).reverse ++ rest) with
        | none => none
        | some order => some (url :: order) := rfl

theorem sum_map_filter_mono (f : α → Nat) (p q : α → Bool)
    (hpq : ∀ x, q x = true → p x = true) :
    ∀ l : List α, ((l.filter q).map f).sum ≤ ((l.filter p).map f).sum := by
  intro l
  induction l with
  | nil => simp
  | cons x xs ih =>
    by_cases hq : q x = true
    · have hp := hpq x hq
      simp only [List.filter_cons, hq, hp, if_true, List.map_cons, List.sum_cons]
      omega
    · by_cases hp : p x = true
      · simp only [List.filter_cons, hq, hp, if_true, if_false, Bool.false_eq_true,
          List.map_cons, List.sum_cons]
        omega
      · simp only [List.filter_cons, hq, hp, if_false, Bool.false_eq_true]
        exact ih

theorem sum_map_filter_remove (f : String → Nat) (a : String) (cache : List String) :
    ∀ l : List String, a ∈ l → a ∉ cache →
      ((l.filter (fun u => decide (u ∉ a :: cache))).map f).sum + f a ≤
        ((l.filter (fun u => decide (u ∉ cache))).map f).sum := by
  intro l
  induction l with
  | nil =>
    intro h
    simp at h
  | cons x xs ih =>
    intro hal hac
    have hmono : ∀ u, decide (u ∉ a :: cache) = true → decide (u ∉ cache) = true := by
      intro u hu
      simp only [decide_eq_true_eq, List.mem_cons, not_or] at hu ⊢
      exact hu.2
    rcases List.mem_cons.mp hal with heq | hmem
    · subst heq
      have h1 : decide (a ∉ a :: cache) = false := by simp
      have h2 : decide (a ∉ cache) = true := by simpa using hac
      simp only [List.filter_cons, h1, h2, if_true, if_false, Bool.false_eq_true,
        List.map_cons, List.sum_cons]
      have := sum_map_filter_mono f (fun u => decide (u ∉ cache))
        (fun u => decide (u ∉ a :: cache)) hmono xs
      omega
    · by_cases hx : x = a
      · subst hx
        have h1 : decide (x ∉ x :: cache) = false := by simp
        have h2 : decide (x ∉ cache) = true := by simpa using hac
        simp only [List.filter_cons, h1, h2, if_true, if_false, Bool.false_eq_true,
          List.map_cons, List.sum_cons]
        have := sum_map_filter_mono f (fun u => decide (u ∉ cache))
          (fun u => decide (u ∉ x :: cache)) hmono xs
        omega
      · have hsame : decide (x ∉ a :: cache) = decide (x ∉ cache) := by
          apply decide_eq_decide.mpr
          simp [List.mem_cons, hx]
        by_cases hk : decide (x ∉ cache) = true
        · simp only [List.filter_cons, hsame, hk, if_true, List.map_cons, List.sum_cons]
          have := ih hmem hac
          omega
        · simp only [List.filter_cons, hsame, hk, if_false, Bool.false_eq_true]
          exact ih hmem hac

theorem crawlLoop_total (links : String → List String) (site : String) (U : List String)
    (hclosed : ∀ u ∈ U, ∀ l ∈ pageLinks links site u, l ∈ U) :
    ∀ (fuel : Nat) (cache queue : List String), (∀ q ∈ queue, q ∈ U) →
      crawlPotential links U cache queue ≤ fuel →
      ∃ order, crawlLoop links site fuel cache queue = some order := by
  intro fuel
  induction fuel with
  | zero =>
    intro cache queue hq hpot
    cases queue with
    | nil => exact ⟨[], crawlLoop_nil links site 0 cache⟩
    | cons url rest =>
      exfalso
      simp only [crawlPotential, List.length_cons] at hpot
      omega
  | succ fuel ih =>
    intro cache queue hq hpot
    cases queue with
    | nil => exact ⟨[], crawlLoop_nil links site (fuel + 1) cache⟩
    | cons url rest =>
      rw [crawlLoop_succ]
      by_cases hc : url ∈ cache
      · rw [if_pos hc]
        apply ih cache rest (fun q hq' => hq q (List.mem_cons_of_mem _ hq'))
        simp only [crawlPotential, List.length_cons] at hpot ⊢
        omega
      · rw [if_neg hc]
        have hurlU : url ∈ U := hq url (List.mem_cons_self _ _)
        have hmemQ : ∀ q ∈ ((((links url).filter
            (fun l => decide (l ∉ url :: cache) && pyStartswith l site)).map
              stripFragment)).reverse ++ rest, q ∈ U := by
          intro q hq'
          rcases List.mem_append.mp hq' with hql | hqr
          · rw [List.mem_reverse] at hql
            apply hclosed url hurlU
            obtain ⟨x, hx, hxq⟩ := List.mem_map.mp hql
            obtain ⟨hx1, hx2⟩ := List.mem_filter.mp hx
            subst hxq
            rw [Bool.and_eq_true] at hx2
            exact List.mem_map_of_mem _ (List.mem_filter.mpr ⟨hx1, hx2.2⟩)
          · exact hq q (List.mem_cons_of_mem _ hqr)
        have hpotQ : crawlPotential links U (url :: cache)
            (((((links url).filter
              (fun l => decide (l ∉ url :: cache) && pyStartswith l site)).map
                stripFragment)).reverse ++ rest) ≤ fuel := by
          have hrem := sum_map_filter_remove (fun u => 1 + (links u).length) url cache U
            hurlU hc
          simp only [] at hrem
          have hlen : ((((links url).filter
              (fun l => decide (l ∉ url :: cache) && pyStartswith l site)).map
                stripFragment)).length ≤ (links url).length := by
            rw [List.length_map]
            exact List.length_filter_le _ _
          simp only [crawlPotential, List.length_append, List.length_reverse,
            List.length_cons] at hpot ⊢
          omega
        obtain ⟨order, horder⟩ := ih (url :: cache)
          (((((links url).filter
            (fun l => decide (l ∉ url :: cache) && pyStartswith l site)).map
              stripFragment)).reverse ++ rest) hmemQ hpotQ
        rw [horder]
        exact ⟨url :: order, rfl⟩

theorem crawlLoop_nodup (links : String → List String) (site : String) :
    ∀ (fuel : Nat) (cache queue order : List String),
      crawlLoop links site fuel cache queue = some order →
      order.Nodup ∧ ∀ u ∈ order, u ∉ cache := by
  intro fuel
  induction fuel with
  | zero =>
    intro cache queue order h
    cases queue with
    | nil =>
      rw [crawlLoop_nil] at h
      injection h with h
      subst h
      exact ⟨List.nodup_nil, by simp⟩
    | cons url rest => exact Option.noConfusion h
  | succ fuel ih =>
    intro cache queue order h
    cases queue with
    | nil =>
      rw [crawlLoop_nil] at h
      injection h with h
      subst h
      exact ⟨List.nodup_nil, by simp⟩
    | cons url rest =>
      rw [crawlLoop_succ] at h
      by_cases hc : url ∈ cache
      · rw [if_pos hc] at h
        exact ih cache rest order h
      · rw [if_neg hc] at h
        rcases hrec : crawlLoop links site fuel (url :: cache)
            (((((links url).filter
              (fun l => decide (l ∉ url :: cache) && pyStartswith l site)).map
                stripFragment)).reverse ++ rest) with _ | order'
        · rw [hrec] at h
          exact Option.noConfusion h
        · rw [hrec] at h
          injection h with h
          subst h
          obtain ⟨hnd, hnc⟩ := ih _ _ _ hrec
          constructor
          · refine List.nodup_cons.mpr ⟨?_, hnd⟩
            intro hmem
            exact (hnc url hmem) (List.mem_cons_self _ _)
          · intro u hu
            rcases List.mem_cons.mp hu with heq | hmem
            · subst heq
              exact hc
            · intro huc
              exact (hnc u hmem) (List.mem_cons_of_mem _ huc)

/-- C7: website-crawler termination and exactly-once visiting. For any finite
same-site link graph — `U` lists the site's URLs (as the crawler normalises
them), closed under the same-site, fragment-stripped links each page
contributes, cycles allowed — the crawl loop of `extract_from_website`
starting at a URL of `U` terminates within the explicit `crawlFuel` bound,
and the sequence of URLs it fetches and parses contains no URL twice,
because the visited-set is checked before every fetch. -/
theorem website_crawl_terminates_and_visits_once (links : String → List String)
    (url : String) (U : List String) (hstart : url ∈ U)
    (hclosed : ∀ u ∈ U, ∀ l ∈ pageLinks links url u, l ∈ U) :
    ∃ order, extract_from_website_visits links url (crawlFuel links U) = some order ∧
      order.Nodup := by
  have hfilter : U.filter (fun u => decide (u ∉ ([] : List String))) = U := by
    apply List.filter_eq_self.mpr
    intro a _
    simp
  have hpot : crawlPotential links U [] [url] ≤ crawlFuel links U := by
    simp only [crawlPotential, crawlFuel, List.length_cons, List.length_nil, hfilter]
    omega
  obtain ⟨order, horder⟩ := crawlLoop_total links url U hclosed (crawlFuel links U) [] [url]
    (by intro q hq; simp only [List.mem_singleton] at hq; subst hq; exact hstart) hpot
  exact ⟨order, horder, (crawlLoop_nodup links url (crawlFuel links U) [] [url] order horder).1⟩

/-- C7 witness: the two-page cyclic site `demoLinks` (start page links to the
subpage through a fragment link; the subpage links back to the start and to
itself) satisfies the closure hypothesis over `demoU`, and the crawl
terminates with a duplicate-free visit sequence. -/
theorem website_crawl_terminates_and_visits_once_witness :
    ("https://site" ∈ demoU ∧
      ∀ u ∈ demoU, ∀ l ∈ pageLinks demoLinks "https://site" u, l ∈ demoU) ∧
    ∃ order, extract_from_website_visits demoLinks "https://site"
      (crawlFuel demoLinks demoU) = some order ∧ order.Nodup := by
  refine ⟨⟨by decide, by decide⟩, ?_⟩
  exact website_crawl_terminates_and_visits_once demoLinks "https://site" demoU
    (by decide) (by decide)
